import Mathlib

/-!
Shallow embedding of the Mise-En-Plaice recipe application, covering the
ingredient consolidator (server/services/ingredientConsolidator.js), the
recipe parser (server/services/recipeParser.js), the combine route
(server/routes/recipes.js), the recipe combiner model fallback
(server/services/recipeCombiner.js) and the client-side streaming session
state machine (client/src/App.js).

Strings are modelled with Lean strings; JavaScript string helpers
(trim, toLowerCase, includes, replace of whitespace runs) are embedded as
executable functions over the underlying character lists.  A JavaScript
object field that may be `undefined` is modelled as an `Option`.
External effects (HTTP fetches, OpenAI chat completions, JSON parsing of
model output) are modelled as oracle parameters.
-/

namespace MiseEnPlaice

/-! ## String helpers (embeddings of the JavaScript string operations) -/

/-- Embedding of JavaScript String.prototype.trim on a character list:
drop leading and trailing whitespace. -/
def trimChars (l : List Char) : List Char :=
  ((l.dropWhile Char.isWhitespace).reverse.dropWhile Char.isWhitespace).reverse

/-- Embedding of JavaScript String.prototype.trim. -/
def trimStr (s : String) : String := ⟨trimChars s.data⟩

/-- Embedding of JavaScript String.prototype.toLowerCase (ASCII range). -/
def lowerStr (s : String) : String := ⟨s.data.map Char.toLower⟩

/-- Containment of one character list in another, scanning left to right. -/
def listContainsSub (l pat : List Char) : Bool :=
  match l with
  | [] => List.isPrefixOf pat []
  | _ :: t => List.isPrefixOf pat l || listContainsSub t pat

/-- Embedding of JavaScript String.prototype.includes. -/
def includesSubstr (s pat : String) : Bool :=
  listContainsSub s.data pat.data

/-- Collapse every run of whitespace characters into a single space,
embedding the JavaScript replace of a whitespace-run pattern by a space. -/
def squeezeSpaces : List Char → List Char
  | [] => []
  | [c] => [if c.isWhitespace then ' ' else c]
  | c₁ :: c₂ :: t =>
    if c₁.isWhitespace && c₂.isWhitespace then squeezeSpaces (c₂ :: t)
    else (if c₁.isWhitespace then ' ' else c₁) :: squeezeSpaces (c₂ :: t)

/-- Embedding of the normalization used for fuzzy matching in the
consolidator: lowercase, collapse whitespace runs, trim. -/
def normalizeKey (s : String) : String :=
  ⟨trimChars (squeezeSpaces (s.data.map Char.toLower))⟩

/-- Split a character list at newline characters. -/
def splitAtNewlines : List Char → List (List Char)
  | [] => [[]]
  | c :: t =>
    match splitAtNewlines t with
    | [] => if c = '\n' then [[], []] else [[c]]
    | first :: rest =>
      if c = '\n' then [] :: first :: rest else (c :: first) :: rest

/-- Embedding of JavaScript String.prototype.split at a newline. -/
def splitLines (s : String) : List String :=
  (splitAtNewlines s.data).map (fun l => ⟨l⟩)

/-- Embedding of JavaScript String.prototype.substring with start 0:
take the first n characters. -/
def takeStr (n : Nat) (s : String) : String := ⟨s.data.take n⟩

/-! ## Ingredient consolidator data model -/

/-- A recipe object as received by consolidateIngredients: a title and an
ingredients field that may be missing or not an array (modelled as none). -/
structure CRecipe where
  title : String
  ingredients : Option (List String)
  deriving Repr, DecidableEq

/-- One deduplicated ingredient entry of the consolidator ingredient map:
exact (trimmed) text, insertion-ordered contributor titles, the index of
first appearance, and the keyword priority computed in step 3. -/
structure IngredientRecord where
  ingredient : String
  recipes : List String
  firstIndex : Nat
  priority : Nat
  deriving Repr, DecidableEq

/-- One item of the externally returned consolidated list. -/
structure ConsolidatedItem where
  ingredient : String
  recipes : List String
  deriving Repr, DecidableEq

/-- The fixed ordered keyword table KEYWORD_PRIORITIES; the priority of a
keyword is its index in this list. -/
def keywordTable : List String :=
  ["oil", "butter", "garlic", "onion", "salt", "pepper", "sugar", "flour",
   "egg", "milk", "cream", "cheese", "tomato", "chicken", "beef", "pasta",
   "rice", "beans", "lemon", "vinegar", "broth", "potato", "carrot",
   "celery", "spinach", "mushroom", "bacon", "sausage", "fish", "shrimp",
   "pork"]

/-- DEFAULT_PRIORITY: the table length, used when no keyword matches. -/
def defaultPriority : Nat := keywordTable.length

/-- Embedding of computeKeywordPriority: lowercase the text and return the
priority (index) of the first keyword contained in it, or the table length
when no keyword occurs. -/
def computeKeywordPriority (text : String) : Nat :=
  let lower := lowerStr text
  match keywordTable.findIdx? (fun kw => includesSubstr lower kw) with
  | some i => i
  | none => defaultPriority

/-- Effective recipe title used by the consolidator flatten step:
recipe.title, or a positional default when the title is falsy (empty). -/
def effectiveTitle (r : CRecipe) (idx : Nat) : String :=
  if r.title = "" then "Recipe " ++ toString (idx + 1) else r.title

/-- Step 1 of consolidateIngredients: flatten recipes into
(trimmed ingredient text, recipe title) pairs in source order. -/
def allIngredientPairs (recipes : List CRecipe) : List (String × String) :=
  recipes.enum.flatMap (fun p =>
    match p.2.ingredients with
    | some ings => ings.map (fun ing => (trimStr ing, effectiveTitle p.2 p.1))
    | none => [])

/-- Step 2 of consolidateIngredients, one pair at a time: if the exact
(trimmed) text was already seen, add the title to that entry's contributor
set; otherwise append a fresh entry whose firstIndex is the running
appearance counter (the number of entries so far). -/
def addTitle (p : String × String) (r : IngredientRecord) :
    IngredientRecord :=
  if r.ingredient = p.1 then
    { r with recipes := if p.2 ∈ r.recipes then r.recipes
                        else r.recipes ++ [p.2] }
  else r

/-- Step 2 of consolidateIngredients, dispatch per pair: update the entry
of an already-seen text, or append a fresh entry. -/
def insertIngredient (acc : List IngredientRecord) (p : String × String) :
    List IngredientRecord :=
  if acc.any (fun r => r.ingredient = p.1) then acc.map (addTitle p)
  else acc ++ [⟨p.1, [p.2], acc.length, 0⟩]

/-- Step 2 of consolidateIngredients over the whole pair list: the unique
ingredient map in insertion order. -/
def buildRecords (pairs : List (String × String)) : List IngredientRecord :=
  pairs.foldl insertIngredient []

/-- Steps 1-3 of consolidateIngredients: the unique ingredients with their
contributor sets, first-appearance indices and keyword priorities. -/
def uniqueIngredients (recipes : List CRecipe) : List IngredientRecord :=
  (buildRecords (allIngredientPairs recipes)).map
    (fun r => { r with priority := computeKeywordPriority r.ingredient })

/-- The comparator of the manual-sort fallback as a total order:
priority ascending, then first-appearance index ascending.  The source
comparator returns the priority difference when nonzero and the
first-index difference otherwise, which orders exactly this way. -/
def recordLE (a b : IngredientRecord) : Prop :=
  a.priority < b.priority ∨
    (a.priority = b.priority ∧ a.firstIndex ≤ b.firstIndex)

instance : DecidableRel recordLE := fun a b => by
  unfold recordLE; infer_instance

instance : IsTotal IngredientRecord recordLE :=
  ⟨by intro a b; unfold recordLE; omega⟩

instance : IsTrans IngredientRecord recordLE :=
  ⟨by intro a b c; unfold recordLE; omega⟩

/-- The deterministic fallback ordering of step 6: sort the unique
ingredients by (priority, firstIndex).  The source uses the engine sort
with a comparator that never ties on distinct entries (first-appearance
indices are distinct), so every correct sort yields the same list;
insertion sort realizes it here. -/
def manualSortRecords (l : List IngredientRecord) : List IngredientRecord :=
  l.insertionSort recordLE

/-- Externalize one record: keep the ingredient text and the contributor
titles in insertion order. -/
def toItem (r : IngredientRecord) : ConsolidatedItem :=
  ⟨r.ingredient, r.recipes⟩

/-- Step 5 of consolidateIngredients: match one response line back to a
unique-ingredient record by exact text, else by normalized text, else keep
it as an orphan entry attributed to an unknown recipe. -/
def matchLine (uniq : List IngredientRecord) (line : String) :
    ConsolidatedItem :=
  match uniq.find? (fun r => r.ingredient = line) with
  | some r => toItem r
  | none =>
    match uniq.find? (fun r => normalizeKey r.ingredient = normalizeKey line) with
    | some r => toItem r
    | none => ⟨line, ["Unknown Recipe"]⟩

/-- Steps 4-5 of consolidateIngredients: given the reorganization call
outcome (none models a failed call), parse the response into trimmed
non-empty lines and match each back; an empty usable result is discarded. -/
def aiConsolidate (uniq : List IngredientRecord)
    (response : Option String) : Option (List ConsolidatedItem) :=
  match response with
  | none => none
  | some text =>
    let lines := ((splitLines (trimStr text)).map trimStr).filter (· ≠ "")
    let matched := lines.map (matchLine uniq)
    if matched.length = 0 then none else some matched

/-- Embedding of consolidateIngredients.  useAI is the
USE_OPENAI_INGREDIENT_CONSOLIDATION flag; ai is the reorganization-call
oracle, mapping the unique ingredient texts to the model response text
(none models any failure of the call).  The second component records
whether a generative reorganization request was issued. -/
def consolidateIngredients (useAI : Bool) (ai : List String → Option String)
    (recipes : Option (List CRecipe)) : List ConsolidatedItem × Bool :=
  match recipes with
  | none => ([], false)
  | some rs =>
    if rs.length = 0 then ([], false)
    else
      let pairs := allIngredientPairs rs
      if pairs.length = 0 then ([], false)
      else
        let uniq := uniqueIngredients rs
        if useAI then
          match aiConsolidate uniq (ai (uniq.map (·.ingredient))) with
          | some items => (items, true)
          | none => ((manualSortRecords uniq).map toItem, true)
        else ((manualSortRecords uniq).map toItem, false)

/-! ## Model fallback policy -/

/-- Outcome of one chat-completion request: the error message thrown, or
the response content.  An oracle maps the model name of the request to its
outcome. -/
def ChatOracle : Type := String → Except String String

/-- Embedding of the primary/secondary model fallback used by
ingredientConsolidator.js and both recipeParser.js call sites: call the
configured model (environment value, default gpt-4); on error, retry once
with gpt-3.5-turbo only when the configured model is exactly gpt-4 and the
error message contains the substring gpt-4.  The second component lists
the models called, in order. -/
def callWithModelFallback (envModel : Option String) (oracle : ChatOracle) :
    Except String String × List String :=
  let model := envModel.getD "gpt-4"
  match oracle model with
  | .ok r => (.ok r, [model])
  | .error e =>
    if model = "gpt-4" ∧ includesSubstr e "gpt-4" then
      (oracle "gpt-3.5-turbo", [model, "gpt-3.5-turbo"])
    else (.error e, [model])

/-- Embedding of the fallback in recipeCombiner.js (both the streaming and
the non-streaming call): retry once with gpt-3.5-turbo when the error
message contains gpt-4 and the environment model value is not the literal
gpt-3.5-turbo; every propagated error is wrapped in the user-facing
message.  The second component lists the models called, in order. -/
def combinerModelFallback (envModel : Option String) (oracle : ChatOracle) :
    Except String String × List String :=
  let model := envModel.getD "gpt-4"
  let wrap := fun (e : String) => "Failed to generate meal prep guide: " ++ e
  match oracle model with
  | .ok r => (.ok r, [model])
  | .error e =>
    if includesSubstr e "gpt-4" ∧ envModel ≠ some "gpt-3.5-turbo" then
      match oracle "gpt-3.5-turbo" with
      | .ok r => (.ok r, [model, "gpt-3.5-turbo"])
      | .error e2 => (.error (wrap e2), [model, "gpt-3.5-turbo"])
    else (.error (wrap e), [model])

/-! ## Recipe parser -/

/-- A normalized recipe record returned by the parser.  The ingredients
and instructions fields are Option lists: none models a JavaScript object
built without that field (the field reads as undefined). -/
structure ParsedRecipe where
  title : String
  source : String
  ingredients : Option (List String)
  instructions : Option (List String)
  rawContent : String
  deriving Repr, DecidableEq

/-- The JSON object shape requested from the structured-extraction calls;
a none field models an absent field (or, for the arrays, a value that is
not an array). -/
structure AIExtraction where
  title : Option String
  ingredients : Option (List String)
  instructions : Option (List String)
  deriving Repr, DecidableEq

/-- Filter applied to AI-returned ingredient and instruction arrays:
keep only truthy strings whose trimmed length is positive. -/
def keepNonBlank (l : List String) : List String :=
  l.filter (fun s => s ≠ "" ∧ (trimStr s).length > 0)

/-- Embedding of parseRecipeFromText.  The text argument is none for a
non-string input; chat is the per-model chat oracle for this text, and
parseJson models JSON.parse on the model response (error models a parse
throw).  Returns the thrown error or the record, plus the list of models
called. -/
def parseRecipeFromText (envModel : Option String) (chat : ChatOracle)
    (parseJson : String → Except String AIExtraction)
    (text : Option String) :
    Except String ParsedRecipe × List String :=
  match text with
  | none => (.error "Invalid recipe text provided", [])
  | some t =>
    if t = "" then (.error "Invalid recipe text provided", [])
    else if (trimStr t).length < 50 then
      (.ok ⟨"Manual Recipe", "manual input", none, none, t⟩, [])
    else
      let degraded : ParsedRecipe := ⟨"Manual Recipe", "manual input", none, none, t⟩
      match callWithModelFallback envModel chat with
      | (.error _, called) => (.ok degraded, called)
      | (.ok responseText, called) =>
        match parseJson (trimStr responseText) with
        | .error _ => (.ok degraded, called)
        | .ok data =>
          let title := match data.title with
            | some s => if s = "" then "Manual Recipe" else s
            | none => "Manual Recipe"
          (.ok ⟨title, "manual input",
                some (keepNonBlank (data.ingredients.getD [])),
                some (keepNonBlank (data.instructions.getD [])),
                t⟩, called)

/-- The outcome of fetching and scraping one URL, at the level the merge
logic of parseRecipeFromUrl consumes it: the title text found by the
title selectors (empty when none matched), the scraped ingredient and
instruction lists after the fallback chains, and the page body text. -/
structure ScrapeResult where
  titleText : String
  ingredients : List String
  instructions : List String
  bodyText : String
  deriving Repr, DecidableEq

/-- The final return of parseRecipeFromUrl: title (with a last-resort
default), source URL, ingredient and instruction lists truncated to 50
entries, and up to 2000 characters of the page body text. -/
def finishUrl (title url : String) (ings insts : List String)
    (bodyText : String) (called : List String) :
    Except String ParsedRecipe × List String :=
  (Except.ok ⟨(if title = "" then "Recipe from URL" else title), url,
    some (ings.take 50), some (insts.take 50), takeStr 2000 bodyText⟩,
   called)

/-- Embedding of parseRecipeFromUrl from the point the fetch and the
scraping strategies have resolved.  fetch is the outcome of the page
fetch and scrape (error models a network failure or non-2xx status).
When scraping left ingredients or instructions empty and the body text is
long enough, the structured-extraction fallback runs: a non-empty
returned ingredients array overwrites the ingredient list after blank
filtering, likewise for instructions; the subsequent title update throws
(the title binding is declared const in the source), the throw is caught
by the enrichment catch, and parsing proceeds with the data already
merged, so the title is never updated.  A failed call or unparsable
response is swallowed.  Returns the thrown error or the record, plus the
models called. -/
def parseRecipeFromUrl (envModel : Option String) (chat : ChatOracle)
    (parseJson : String → Except String AIExtraction)
    (url : String) (fetch : Except String ScrapeResult) :
    Except String ParsedRecipe × List String :=
  match fetch with
  | .error e => (.error ("Failed to parse recipe from URL: " ++ e), [])
  | .ok s =>
    let title := if s.titleText = "" then "Untitled Recipe" else s.titleText
    if s.ingredients.length = 0 ∨ s.instructions.length = 0 then
      let bodyText := takeStr 5000 s.bodyText
      if bodyText.length > 100 then
        match callWithModelFallback envModel chat with
        | (.error _, called) =>
          finishUrl title url s.ingredients s.instructions s.bodyText called
        | (.ok responseText, called) =>
          match parseJson (trimStr responseText) with
          | .error _ =>
            finishUrl title url s.ingredients s.instructions s.bodyText called
          | .ok data =>
            let ings := match data.ingredients with
              | some l => if l.length > 0 then keepNonBlank l else s.ingredients
              | none => s.ingredients
            let insts := match data.instructions with
              | some l => if l.length > 0 then keepNonBlank l else s.instructions
              | none => s.instructions
            finishUrl title url ings insts s.bodyText called
      else finishUrl title url s.ingredients s.instructions s.bodyText []
    else finishUrl title url s.ingredients s.instructions s.bodyText []

/-! ## Combine route event stream -/

/-- The per-recipe payload of the metadata event. -/
structure MetaRecipe where
  title : String
  source : String
  ingredients : List String
  deriving Repr, DecidableEq

/-- One server-sent event of the combine stream. -/
inductive SSEEvent where
  | metadata (recipes : List MetaRecipe)
  | chunk (text : String)
  | done (savedFilename : Option String)
  | error (msg : String)
  deriving Repr, DecidableEq

instance : Inhabited SSEEvent := ⟨SSEEvent.done none⟩

/-- Predicate for the metadata event kind. -/
def SSEEvent.isMetadata : SSEEvent → Bool
  | .metadata _ => true
  | _ => false

/-- Predicate for the chunk event kind. -/
def SSEEvent.isChunk : SSEEvent → Bool
  | .chunk _ => true
  | _ => false

/-- Predicate for the two terminal event kinds. -/
def SSEEvent.isTerminal : SSEEvent → Bool
  | .done _ => true
  | .error _ => true
  | _ => false

/-- The response of one POST combine request: a JSON 400, a JSON 500 sent
before streaming began, or a server-sent event stream. -/
inductive CombineResponse where
  | badRequest (msg : String)
  | serverError (msg : String)
  | stream (events : List SSEEvent)
  deriving Repr, DecidableEq

/-- One submitted recipe source of the request body. -/
structure ReqRecipe where
  type : String
  content : String
  deriving Repr, DecidableEq

/-- Projection of a parsed recipe onto the metadata event payload; an
undefined ingredients field is replaced by an empty array. -/
def toMetaRecipe (r : ParsedRecipe) : MetaRecipe :=
  ⟨r.title, r.source, r.ingredients.getD []⟩

/-- Embedding of the POST combine route.  body is the recipes field of the
request (none when absent or not an array).  parsed is the joint outcome
of the parallel extractor calls (error: the first rejection).  chunks are
the fragments the streaming combiner delivers to the route callback, and
streamErr is the failure of the streaming call after those chunks (none:
the stream completed).  save is the outcome of the guide persistence call.
Produces the full response of the request. -/
def combineRoute (body : Option (List ReqRecipe))
    (parsed : Except String (List ParsedRecipe))
    (chunks : List String) (streamErr : Option String)
    (save : Except String String) : CombineResponse :=
  match body with
  | none => .badRequest "Please provide at least one recipe"
  | some reqs =>
    if reqs.length = 0 then .badRequest "Please provide at least one recipe"
    else if reqs.any (fun r => r.type ≠ "url" ∧ r.type ≠ "text") then
      .badRequest "Invalid recipe type. Use \x22url\x22 or \x22text\x22"
    else
      match parsed with
      | .error e =>
        .serverError (if e = "" then "Failed to combine recipes" else e)
      | .ok recipes =>
        let meta := SSEEvent.metadata (recipes.map toMetaRecipe)
        match streamErr with
        | some e =>
          .stream ([meta] ++ chunks.map SSEEvent.chunk ++
            [SSEEvent.error
              (if e = "" then "Failed to generate meal prep guide" else e)])
        | none =>
          let savedFilename := match save with
            | .ok f => if f = "" then none else some f
            | .error _ => none
          .stream ([meta] ++ chunks.map SSEEvent.chunk ++
            [SSEEvent.done savedFilename])

/-! ## Client streaming session -/

/-- The client-side state of one streaming combine session that is
relevant to the consolidation trigger: the one-shot trigger flag, the
recipes-with-ingredients value, the accumulated guide text, and the
arguments of every consolidation invocation scheduled so far, in order. -/
structure ClientState where
  triggered : Bool
  recipesWithIngredients : List MetaRecipe
  guide : String
  consolidationCalls : List (List MetaRecipe)
  deriving Repr, DecidableEq

/-- The client state at the start of a session, after handleCombineRecipes
reset the trigger flag, the recipe list and the guide. -/
def initialClientState : ClientState := ⟨false, [], "", []⟩

/-- Embedding of the per-event handler of the streaming loop in App.js:
the metadata handler stores the recipes and, when they are non-empty and
the flag is unset, sets the flag and schedules consolidation with the
metadata-time recipes; the chunk handler appends truthy chunks to the
guide; the done handler, only when the flag is still unset, sets it and
schedules consolidation with the stored recipes when non-empty; the error
handler changes none of this state (it throws to the surrounding catch). -/
def clientStep (s : ClientState) (e : SSEEvent) : ClientState :=
  match e with
  | .metadata rs =>
    let s1 := { s with recipesWithIngredients := rs }
    if rs.length > 0 ∧ ¬ s1.triggered then
      { s1 with triggered := true,
                consolidationCalls := s1.consolidationCalls ++ [rs] }
    else s1
  | .chunk c =>
    if c ≠ "" then { s with guide := s.guide ++ c } else s
  | .done _ =>
    if ¬ s.triggered then
      let s1 := { s with triggered := true }
      if s1.recipesWithIngredients.length > 0 then
        { s1 with consolidationCalls :=
            s1.consolidationCalls ++ [s1.recipesWithIngredients] }
      else s1
    else s
  | .error _ => s

/-- The client state after processing a list of stream events. -/
def runClient (events : List SSEEvent) : ClientState :=
  events.foldl clientStep initialClientState

/-! ## Helper lemmas -/

/-- A chunk event never changes the trigger flag, the stored recipe list
or the recorded consolidation calls. -/
lemma clientStep_chunk_fields (s : ClientState) (c : String) :
    (clientStep s (SSEEvent.chunk c)).triggered = s.triggered ∧
    (clientStep s (SSEEvent.chunk c)).recipesWithIngredients =
      s.recipesWithIngredients ∧
    (clientStep s (SSEEvent.chunk c)).consolidationCalls =
      s.consolidationCalls := by
  by_cases hc : c = "" <;> simp [clientStep, hc]

/-- A run of chunk events never changes the trigger flag, the stored
recipe list or the recorded consolidation calls. -/
lemma foldl_chunks_fields (cs : List String) (s : ClientState) :
    ((cs.map SSEEvent.chunk).foldl clientStep s).triggered = s.triggered ∧
    ((cs.map SSEEvent.chunk).foldl clientStep s).recipesWithIngredients =
      s.recipesWithIngredients ∧
    ((cs.map SSEEvent.chunk).foldl clientStep s).consolidationCalls =
      s.consolidationCalls := by
  induction cs generalizing s with
  | nil => simp
  | cons c t ih =>
    simp only [List.map_cons, List.foldl_cons]
    obtain ⟨h1, h2, h3⟩ := ih (clientStep s (SSEEvent.chunk c))
    obtain ⟨g1, g2, g3⟩ := clientStep_chunk_fields s c
    exact ⟨h1.trans g1, h2.trans g2, h3.trans g3⟩

/-- In a list made of non-terminal events followed by one final event,
any decomposition around a terminal event puts that event last. -/
lemma terminal_is_last {α : Type} (P : α → Bool) :
    ∀ (l : List α) (x : α), (∀ y ∈ l, P y = false) →
      ∀ pre t post, l ++ [x] = pre ++ t :: post → P t = true → post = [] := by
  intro l
  induction l with
  | nil =>
    intro x _ pre t post heq _
    cases pre with
    | nil =>
      simp only [List.nil_append] at heq
      injection heq with h1 h2
      exact h2.symm
    | cons a pre2 =>
      simp only [List.nil_append, List.cons_append] at heq
      injection heq with h1 h2
      simp at h2
  | cons y l ih =>
    intro x hl pre t post heq ht
    cases pre with
    | nil =>
      simp only [List.cons_append, List.nil_append] at heq
      injection heq with h1 h2
      rw [← h1] at ht
      rw [hl y (List.mem_cons_self y l)] at ht
      exact absurd ht (by simp)
    | cons a pre2 =>
      simp only [List.cons_append] at heq
      injection heq with h1 h2
      exact ih x (fun z hz => hl z (List.mem_cons_of_mem _ hz)) pre2 t post h2 ht

/-- Filtering a list of chunk events with a predicate that rejects chunks
yields nothing. -/
lemma filter_chunks_eq_nil (p : SSEEvent → Bool) (cs : List String)
    (h : ∀ c, p (SSEEvent.chunk c) = false) :
    (cs.map SSEEvent.chunk).filter p = [] := by
  induction cs with
  | nil => rfl
  | cons c t ih => simp [h, ih]

/-- When every recipe has a missing or empty ingredients array, the
flatten step produces no pairs. -/
lemma allIngredientPairs_eq_nil (rs : List CRecipe)
    (h : ∀ r ∈ rs, r.ingredients.getD [] = []) :
    allIngredientPairs rs = [] := by
  unfold allIngredientPairs
  rw [List.flatMap_eq_nil_iff]
  rw [List.forall_mem_enum]
  intro i hi
  have hr := h (rs[i]) (List.getElem_mem hi)
  cases hmatch : (rs[i]).ingredients with
  | none => simp
  | some ings =>
    rw [hmatch] at hr
    simp only [Option.getD_some] at hr
    simp [hr]

/-! ## Claim theorems -/

/-- C6: for every text source whose content is a non-empty string with
trimmed length below 50, parseRecipeFromText issues no generative call and
returns the minimal manual-input record carrying the original text. -/
theorem short_text_skips_generative_call (envModel : Option String)
    (chat : ChatOracle) (parseJson : String → Except String AIExtraction)
    (t : String) (hne : t ≠ "") (hshort : (trimStr t).length < 50) :
    parseRecipeFromText envModel chat parseJson (some t) =
      (.ok ⟨"Manual Recipe", "manual input", none, none, t⟩, []) := by
  unfold parseRecipeFromText
  simp [hne, hshort]

/-- Witness for C6 at the ten-character input of the spec scenario. -/
theorem short_text_skips_generative_call_witness :
    "short text" ≠ "" ∧ (trimStr "short text").length < 50 ∧
    parseRecipeFromText none (fun _ => .error "down")
      (fun _ => .error "bad") (some "short text") =
      (.ok ⟨"Manual Recipe", "manual input", none, none, "short text"⟩, []) :=
  ⟨by decide, by decide,
    short_text_skips_generative_call none (fun _ => .error "down")
      (fun _ => .error "bad") "short text" (by decide) (by decide)⟩

/-- C10: with an absent recipes value, or when no recipe contributes any
ingredient entry, consolidateIngredients returns the empty list and issues
no generative reorganization request, in every mode. -/
theorem consolidate_empty_input (useAI : Bool)
    (ai : List String → Option String) (recipes : Option (List CRecipe))
    (h : recipes = none ∨
      ∃ rs, recipes = some rs ∧ ∀ r ∈ rs, r.ingredients.getD [] = []) :
    consolidateIngredients useAI ai recipes = ([], false) := by
  rcases h with h | ⟨rs, hrs, hempty⟩
  · rw [h]; rfl
  · rw [hrs]
    unfold consolidateIngredients
    rcases Nat.eq_zero_or_pos rs.length with hz | hp
    · simp [hz]
    · have hpairs := allIngredientPairs_eq_nil rs hempty
      simp [hpairs, Nat.pos_iff_ne_zero.mp hp]

/-- Witness for C10: a recipe list whose only recipe has an empty
ingredient list yields the empty result with no request, in AI mode. -/
theorem consolidate_empty_input_witness :
    consolidateIngredients true (fun l => some (String.intercalate "," l))
      (some [⟨"A", some []⟩, ⟨"B", none⟩]) = ([], false) :=
  consolidate_empty_input true (fun l => some (String.intercalate "," l))
    (some [⟨"A", some []⟩, ⟨"B", none⟩])
    (Or.inr ⟨[⟨"A", some []⟩, ⟨"B", none⟩], rfl, by decide⟩)

/-- C1: in a session whose metadata event carries a non-empty recipe list
and that then streams chunks and completes, consolidation is scheduled
exactly once, from the metadata handler with the metadata-time recipes;
the completion handler observes the set flag and schedules nothing. -/
theorem consolidation_trigger_fires_once (rs : List MetaRecipe)
    (cs : List String) (fn : Option String) (h : rs.length > 0) :
    (runClient (SSEEvent.metadata rs ::
        (cs.map SSEEvent.chunk ++ [SSEEvent.done fn]))).consolidationCalls
      = [rs] ∧
    (runClient (SSEEvent.metadata rs ::
        (cs.map SSEEvent.chunk ++ [SSEEvent.done fn]))).triggered = true := by
  unfold runClient
  rw [List.foldl_cons, List.foldl_append]
  have hmeta : clientStep initialClientState (SSEEvent.metadata rs) =
      ⟨true, rs, "", [rs]⟩ := by
    simp [clientStep, initialClientState, h]
  rw [hmeta]
  obtain ⟨h1, _, h3⟩ := foldl_chunks_fields cs ⟨true, rs, "", [rs]⟩
  set s2 := (cs.map SSEEvent.chunk).foldl clientStep ⟨true, rs, "", [rs]⟩
  have hdone : clientStep s2 (SSEEvent.done fn) = s2 := by
    simp [clientStep, h1]
  simp only [List.foldl_cons, List.foldl_nil, hdone]
  exact ⟨h3, h1⟩

/-- Witness for C1 at a one-recipe metadata event followed by two chunks
and completion. -/
theorem consolidation_trigger_fires_once_witness :
    ([(⟨"A", "manual input", ["1 tsp salt"]⟩ : MetaRecipe)].length > 0) ∧
    (runClient (SSEEvent.metadata [⟨"A", "manual input", ["1 tsp salt"]⟩] ::
        (["Hello ", "world"].map SSEEvent.chunk ++ [SSEEvent.done none]))
      ).consolidationCalls = [[⟨"A", "manual input", ["1 tsp salt"]⟩]] :=
  ⟨by decide,
    (consolidation_trigger_fires_once [⟨"A", "manual input", ["1 tsp salt"]⟩]
      ["Hello ", "world"] none (by decide)).1⟩

/-- C4: on a valid combine request, when the joint extractor step fails,
the route answers with a single structured JSON error and emits no stream
event of any kind. -/
theorem extractor_failure_fails_fast (reqs : List ReqRecipe) (e : String)
    (chunks : List String) (streamErr : Option String)
    (save : Except String String) (hne : reqs.length > 0)
    (hvalid : ∀ r ∈ reqs, r.type = "url" ∨ r.type = "text") :
    combineRoute (some reqs) (.error e) chunks streamErr save =
      .serverError (if e = "" then "Failed to combine recipes" else e) ∧
    ∀ evs, combineRoute (some reqs) (.error e) chunks streamErr save ≠
      .stream evs := by
  have hne0 : ¬ reqs.length = 0 := Nat.pos_iff_ne_zero.mp hne
  have hnoinv : ¬ ((reqs.any fun r =>
      decide (r.type ≠ "url" ∧ r.type ≠ "text")) = true) := by
    rw [List.any_eq_false.mpr]
    · simp
    · intro r hr
      rcases hvalid r hr with h | h <;> simp [h]
  constructor
  · show (if reqs.length = 0 then CombineResponse.badRequest
        "Please provide at least one recipe"
      else if (reqs.any fun r => decide (r.type ≠ "url" ∧ r.type ≠ "text")) =
          true then
        CombineResponse.badRequest "Invalid recipe type. Use \x22url\x22 or \x22text\x22"
      else CombineResponse.serverError
        (if e = "" then "Failed to combine recipes" else e)) =
      CombineResponse.serverError
        (if e = "" then "Failed to combine recipes" else e)
    rw [if_neg hne0, if_neg hnoinv]
  · intro evs
    show ¬ ((if reqs.length = 0 then CombineResponse.badRequest
        "Please provide at least one recipe"
      else if (reqs.any fun r => decide (r.type ≠ "url" ∧ r.type ≠ "text")) =
          true then
        CombineResponse.badRequest "Invalid recipe type. Use \x22url\x22 or \x22text\x22"
      else CombineResponse.serverError
        (if e = "" then "Failed to combine recipes" else e)) =
      CombineResponse.stream evs)
    rw [if_neg hne0, if_neg hnoinv]
    simp

/-- Witness for C4: an HTTP 500 during a URL fetch surfaces as the
structured error of the request. -/
theorem extractor_failure_fails_fast_witness :
    combineRoute (some [⟨"url", "http://x"⟩])
      (.error "Failed to parse recipe from URL: Request failed with status code 500")
      [] none (.error "ignored") =
      .serverError
        "Failed to parse recipe from URL: Request failed with status code 500" :=
  ((extractor_failure_fails_fast [⟨"url", "http://x"⟩]
      "Failed to parse recipe from URL: Request failed with status code 500"
      [] none (.error "ignored") (by decide) (by decide)).1).trans (by decide)

/-- Properties of an event list made of a metadata event, chunk events
and one terminal event. -/
lemma stream_shape_props (m : List MetaRecipe) (cs : List String)
    (t : SSEEvent) (ht : t.isTerminal = true) :
    ((SSEEvent.metadata m :: (cs.map SSEEvent.chunk ++ [t])).filter
      (·.isMetadata)).length = 1 ∧
    ((SSEEvent.metadata m :: (cs.map SSEEvent.chunk ++ [t])).filter
      (·.isTerminal)).length = 1 ∧
    (∀ pre u post,
      SSEEvent.metadata m :: (cs.map SSEEvent.chunk ++ [t]) =
        pre ++ u :: post → u.isTerminal = true → post = []) := by
  have hmt : t.isMetadata = false := by
    cases t with
    | metadata rs => simp [SSEEvent.isTerminal] at ht
    | chunk c => rfl
    | done fn => rfl
    | error m2 => rfl
  refine ⟨?_, ?_, ?_⟩
  · have hfm := filter_chunks_eq_nil (·.isMetadata) cs (fun c => rfl)
    rw [List.filter_cons, List.filter_append, hfm]
    have h2 : [t].filter (·.isMetadata) = [] := by
      rw [List.filter_cons]
      simp [hmt]
    rw [h2]
    simp [SSEEvent.isMetadata]
  · have hft := filter_chunks_eq_nil (·.isTerminal) cs (fun c => rfl)
    rw [List.filter_cons, List.filter_append, hft]
    have h2 : [t].filter (·.isTerminal) = [t] := by
      rw [List.filter_cons]
      simp [ht]
    rw [h2]
    have h1 : (SSEEvent.metadata m).isTerminal = false := rfl
    simp [h1]
  · intro pre u post heq hu
    have hshape : SSEEvent.metadata m :: (cs.map SSEEvent.chunk ++ [t]) =
        (SSEEvent.metadata m :: cs.map SSEEvent.chunk) ++ [t] := by simp
    refine terminal_is_last (·.isTerminal)
      (SSEEvent.metadata m :: cs.map SSEEvent.chunk) t ?_ pre u post
      (hshape ▸ heq) hu
    intro y hy
    rcases List.mem_cons.mp hy with h | h
    · rw [h]; rfl
    · rcases List.mem_map.mp h with ⟨c, _, hc⟩
      rw [← hc]; rfl

/-- C2: in every streaming session the metadata event comes first and is
the only metadata event, exactly one terminal event is emitted, every
terminal event is the last event, and no chunk event follows a terminal
event. -/
theorem stream_event_protocol (body : Option (List ReqRecipe))
    (parsed : Except String (List ParsedRecipe)) (chunks : List String)
    (streamErr : Option String) (save : Except String String)
    (events : List SSEEvent)
    (h : combineRoute body parsed chunks streamErr save = .stream events) :
    (∃ rs, events.head? = some (.metadata rs)) ∧
    (events.filter (·.isMetadata)).length = 1 ∧
    (events.filter (·.isTerminal)).length = 1 ∧
    (∀ pre t post, events = pre ++ t :: post → t.isTerminal = true →
      post = [] ∧ ∀ c ∈ post, c.isChunk = false) := by
  cases body with
  | none =>
    simp only [combineRoute] at h
    exact absurd h (by simp)
  | some reqs =>
    simp only [combineRoute] at h
    by_cases h0 : reqs.length = 0
    · rw [if_pos h0] at h
      exact absurd h (by simp)
    · rw [if_neg h0] at h
      split at h
      · exact absurd h (by simp)
      · cases parsed with
        | error e => exact absurd h (by simp)
        | ok recipes =>
          cases streamErr with
          | some e =>
            simp only [CombineResponse.stream.injEq] at h
            subst h
            obtain ⟨f1, f2, f3⟩ := stream_shape_props (recipes.map toMetaRecipe)
              chunks (SSEEvent.error
                (if e = "" then "Failed to generate meal prep guide" else e))
              rfl
            refine ⟨⟨recipes.map toMetaRecipe, rfl⟩, by simpa using f1,
              by simpa using f2, ?_⟩
            intro pre t post heq ht
            have := f3 pre t post (by simpa using heq) ht
            exact ⟨this, by simp [this]⟩
          | none =>
            simp only [CombineResponse.stream.injEq] at h
            subst h
            obtain ⟨f1, f2, f3⟩ := stream_shape_props (recipes.map toMetaRecipe)
              chunks (SSEEvent.done (match save with
                | .ok f => if f = "" then none else some f
                | .error _ => none)) rfl
            refine ⟨⟨recipes.map toMetaRecipe, rfl⟩, by simpa using f1,
              by simpa using f2, ?_⟩
            intro pre t post heq ht
            have := f3 pre t post (by simpa using heq) ht
            exact ⟨this, by simp [this]⟩

/-- Witness for C2 at a concrete two-chunk completed session. -/
theorem stream_event_protocol_witness :
    (([SSEEvent.metadata [⟨"Manual Recipe", "manual input", []⟩],
       SSEEvent.chunk "Step ", SSEEvent.chunk "one",
       SSEEvent.done (some "guide.txt")].filter (·.isMetadata)).length = 1) ∧
    (([SSEEvent.metadata [⟨"Manual Recipe", "manual input", []⟩],
       SSEEvent.chunk "Step ", SSEEvent.chunk "one",
       SSEEvent.done (some "guide.txt")].filter (·.isTerminal)).length = 1) := by
  have h := stream_event_protocol (some [⟨"text", "abc"⟩])
    (.ok [⟨"Manual Recipe", "manual input", none, none, "abc"⟩])
    ["Step ", "one"] none (.ok "guide.txt")
    [SSEEvent.metadata [⟨"Manual Recipe", "manual input", []⟩],
     SSEEvent.chunk "Step ", SSEEvent.chunk "one",
     SSEEvent.done (some "guide.txt")] (by decide)
  exact ⟨h.2.1, h.2.2.1⟩

/-- C7 counterexample: with the configured model gpt-4-turbo and an error
naming exactly that model, the consolidator/parser fallback does not retry
with the secondary model, though the claim requires one retry. -/
theorem model_fallback_counterexample :
    includesSubstr "The model gpt-4-turbo does not exist" "gpt-4-turbo" =
      true ∧
    ("gpt-4-turbo" : String) ≠ "gpt-3.5-turbo" ∧
    (callWithModelFallback (some "gpt-4-turbo")
      (fun m => .error ("The model " ++ m ++ " does not exist"))).2 =
      ["gpt-4-turbo"] ∧
    (["gpt-4-turbo"] : List String) ≠ ["gpt-4-turbo", "gpt-3.5-turbo"] := by
  refine ⟨by decide, by decide, by decide, by decide⟩

/-- C7 amended: when the first call fails, the consolidator/parser sites
retry once with gpt-3.5-turbo exactly when the configured model is the
literal gpt-4 and the error message contains gpt-4, while the combiner
sites retry once with gpt-3.5-turbo exactly when the error message
contains gpt-4 and the configured environment value is not the literal
gpt-3.5-turbo; otherwise the failure propagates with no retry. -/
theorem model_fallback_amended (envModel : Option String)
    (oracle : ChatOracle) (e : String)
    (h : oracle (envModel.getD "gpt-4") = .error e) :
    (callWithModelFallback envModel oracle).2 =
      (if envModel.getD "gpt-4" = "gpt-4" ∧ includesSubstr e "gpt-4" = true
       then ["gpt-4", "gpt-3.5-turbo"] else [envModel.getD "gpt-4"]) ∧
    (combinerModelFallback envModel oracle).2 =
      (if includesSubstr e "gpt-4" = true ∧ envModel ≠ some "gpt-3.5-turbo"
       then [envModel.getD "gpt-4", "gpt-3.5-turbo"]
       else [envModel.getD "gpt-4"]) := by
  constructor
  · unfold callWithModelFallback
    dsimp only
    rw [h]
    dsimp only
    by_cases hc : envModel.getD "gpt-4" = "gpt-4" ∧ includesSubstr e "gpt-4" = true
    · rw [if_pos hc, if_pos hc, hc.1]
    · rw [if_neg hc, if_neg hc]
  · unfold combinerModelFallback
    dsimp only
    rw [h]
    dsimp only
    by_cases hc : includesSubstr e "gpt-4" = true ∧ envModel ≠ some "gpt-3.5-turbo"
    · rw [if_pos hc, if_pos hc]
      cases oracle "gpt-3.5-turbo" <;> rfl
    · rw [if_neg hc, if_neg hc]

/-- Witness for C7 amended: default configuration, gpt-4 unavailable,
both fallback shapes retry once with gpt-3.5-turbo. -/
theorem model_fallback_amended_witness :
    (callWithModelFallback none (fun m =>
      if m = "gpt-4" then .error "The model gpt-4 does not exist"
      else .ok "fine")).2 = ["gpt-4", "gpt-3.5-turbo"] ∧
    (combinerModelFallback none (fun m =>
      if m = "gpt-4" then .error "The model gpt-4 does not exist"
      else .ok "fine")).2 = ["gpt-4", "gpt-3.5-turbo"] := by
  have h := model_fallback_amended none (fun m =>
      if m = "gpt-4" then .error "The model gpt-4 does not exist"
      else .ok "fine") "The model gpt-4 does not exist" rfl
  obtain ⟨h1, h2⟩ := h
  rw [if_pos (by decide)] at h1
  rw [if_pos (by decide)] at h2
  exact ⟨h1, h2⟩

/-- C8: evaluation of the URL merge path at inputs where the structured
extraction returns a non-empty title (first part: the title is not merged,
because the source assigns to a const binding and the resulting throw is
swallowed by the enrichment catch) and where it returns a whitespace-only
ingredient array (second part: scraped non-empty ingredients are replaced
by an empty array after blank filtering). -/
theorem url_merge_divergence :
    (parseRecipeFromUrl none (fun _ => .ok "resp")
      (fun _ => .ok ⟨some "Chocolate Cake", some ["2 cups flour"], some []⟩)
      "http://example.com/recipe"
      (.ok ⟨"", [], ["Mix the flour and bake for thirty minutes."],
        "Chocolate Cake recipe. Mix two cups of flour with butter and sugar, then bake for thirty minutes at 350 degrees."⟩)).1 =
      .ok ⟨"Untitled Recipe", "http://example.com/recipe",
        some ["2 cups flour"],
        some ["Mix the flour and bake for thirty minutes."],
        "Chocolate Cake recipe. Mix two cups of flour with butter and sugar, then bake for thirty minutes at 350 degrees."⟩ ∧
    ("Untitled Recipe" : String) ≠ "Chocolate Cake" ∧
    (parseRecipeFromUrl none (fun _ => .ok "resp")
      (fun _ => .ok ⟨none, some [" "], some ["Preheat the oven."]⟩)
      "http://example.com/recipe"
      (.ok ⟨"T", ["1 cup flour"], [],
        "Chocolate Cake recipe. Mix two cups of flour with butter and sugar, then bake for thirty minutes at 350 degrees."⟩)).1 =
      .ok ⟨"T", "http://example.com/recipe", some [],
        some ["Preheat the oven."],
        "Chocolate Cake recipe. Mix two cups of flour with butter and sugar, then bake for thirty minutes at 350 degrees."⟩ := by
  refine ⟨rfl, by decide, rfl⟩

/-- C9 counterexample: the short-input branch of the text path returns a
record whose ingredients and instructions fields are undefined. -/
theorem parsed_fields_counterexample :
    (parseRecipeFromText none (fun _ => .error "service down")
      (fun _ => .error "bad json") (some "hi")).1 =
      .ok ⟨"Manual Recipe", "manual input", none, none, "hi"⟩ ∧
    (ParsedRecipe.mk "Manual Recipe" "manual input" none none
      "hi").ingredients = none ∧
    (ParsedRecipe.mk "Manual Recipe" "manual input" none none
      "hi").instructions = none :=
  ⟨rfl, rfl, rfl⟩

/-- C9 amended: every record returned on the URL path, and every record of
the successful text path, carries defined (possibly empty) ingredient and
instruction arrays; the short-input and degraded-failure branches of the
text path return the minimal manual record, whose two fields are
undefined. -/
theorem parsed_fields_amended :
    (∀ (envModel : Option String) (chat : ChatOracle)
      (parseJson : String → Except String AIExtraction) (url : String)
      (fetch : Except String ScrapeResult) (r : ParsedRecipe)
      (called : List String),
      parseRecipeFromUrl envModel chat parseJson url fetch =
        (.ok r, called) →
      (∃ l, r.ingredients = some l) ∧ ∃ l, r.instructions = some l) ∧
    (∀ (envModel : Option String) (chat : ChatOracle)
      (parseJson : String → Except String AIExtraction)
      (text : Option String) (r : ParsedRecipe) (called : List String),
      parseRecipeFromText envModel chat parseJson text = (.ok r, called) →
      ((∃ l, r.ingredients = some l) ∧ ∃ l, r.instructions = some l) ∨
      r = ⟨"Manual Recipe", "manual input", none, none, r.rawContent⟩) := by
  constructor
  · intro envModel chat parseJson url fetch r called h
    unfold parseRecipeFromUrl at h
    cases fetch with
    | error e => simp at h
    | ok s =>
      dsimp only at h
      split at h
      · split at h
        · split at h
          · unfold finishUrl at h
            simp only [Prod.mk.injEq, Except.ok.injEq] at h
            rw [← h.1]
            exact ⟨⟨_, rfl⟩, _, rfl⟩
          · split at h
            · unfold finishUrl at h
              simp only [Prod.mk.injEq, Except.ok.injEq] at h
              rw [← h.1]
              exact ⟨⟨_, rfl⟩, _, rfl⟩
            · unfold finishUrl at h
              simp only [Prod.mk.injEq, Except.ok.injEq] at h
              rw [← h.1]
              exact ⟨⟨_, rfl⟩, _, rfl⟩
        · unfold finishUrl at h
          simp only [Prod.mk.injEq, Except.ok.injEq] at h
          rw [← h.1]
          exact ⟨⟨_, rfl⟩, _, rfl⟩
      · unfold finishUrl at h
        simp only [Prod.mk.injEq, Except.ok.injEq] at h
        rw [← h.1]
        exact ⟨⟨_, rfl⟩, _, rfl⟩
  · intro envModel chat parseJson text r called h
    unfold parseRecipeFromText at h
    cases text with
    | none => simp at h
    | some t =>
      dsimp only at h
      split at h
      · simp at h
      · split at h
        · simp only [Prod.mk.injEq, Except.ok.injEq] at h
          right
          rw [← h.1]
        · split at h
          · simp only [Prod.mk.injEq, Except.ok.injEq] at h
            right
            rw [← h.1]
          · split at h
            · simp only [Prod.mk.injEq, Except.ok.injEq] at h
              right
              rw [← h.1]
            · simp only [Prod.mk.injEq, Except.ok.injEq] at h
              left
              rw [← h.1]
              exact ⟨⟨_, rfl⟩, _, rfl⟩

/-- Witness for C9 amended: a URL record scraped fully keeps both arrays
defined. -/
theorem parsed_fields_amended_witness :
    ((∃ l, (ParsedRecipe.mk "T" "http://a" (some ["i1"]) (some ["s1"])
      "body").ingredients = some l) ∧
     ∃ l, (ParsedRecipe.mk "T" "http://a" (some ["i1"]) (some ["s1"])
      "body").instructions = some l) :=
  parsed_fields_amended.1 none (fun _ => .ok "x") (fun _ => .error "e")
    "http://a" (.ok ⟨"T", ["i1"], ["s1"], "body"⟩)
    ⟨"T", "http://a", some ["i1"], some ["s1"], "body"⟩ [] rfl

/-- Updating an entry changes only its contributor set. -/
lemma addTitle_ingredient (p : String × String) (r : IngredientRecord) :
    (addTitle p r).ingredient = r.ingredient := by
  unfold addTitle; split <;> rfl

/-- Updating an entry keeps its first-appearance index. -/
lemma addTitle_firstIndex (p : String × String) (r : IngredientRecord) :
    (addTitle p r).firstIndex = r.firstIndex := by
  unfold addTitle; split <;> rfl

/-- One insertion step preserves the dedup-map invariants: distinct entry
texts, entry texts = texts seen so far, contributor sets = titles paired
with the entry text so far (without duplicates), at most one entry per
pair, and first-appearance indices 0,1,2,… in order. -/
lemma insertIngredient_inv (qs : List (String × String))
    (acc : List IngredientRecord) (p : String × String)
    (h1 : (acc.map (·.ingredient)).Nodup)
    (h2 : ∀ s, s ∈ acc.map (·.ingredient) ↔ s ∈ qs.map Prod.fst)
    (h3 : ∀ r ∈ acc,
      (∀ t, t ∈ r.recipes ↔ (r.ingredient, t) ∈ qs) ∧ r.recipes.Nodup)
    (h4 : acc.length ≤ qs.length)
    (h5 : acc.map (·.firstIndex) = List.range acc.length) :
    ((insertIngredient acc p).map (·.ingredient)).Nodup ∧
    (∀ s, s ∈ (insertIngredient acc p).map (·.ingredient) ↔
      s ∈ (qs ++ [p]).map Prod.fst) ∧
    (∀ r ∈ insertIngredient acc p,
      (∀ t, t ∈ r.recipes ↔ (r.ingredient, t) ∈ qs ++ [p]) ∧
      r.recipes.Nodup) ∧
    (insertIngredient acc p).length ≤ (qs ++ [p]).length ∧
    (insertIngredient acc p).map (·.firstIndex) =
      List.range (insertIngredient acc p).length := by
  unfold insertIngredient
  by_cases hmem : (acc.any fun r => decide (r.ingredient = p.1)) = true
  · rw [if_pos hmem]
    have hpmem : p.1 ∈ acc.map (·.ingredient) := by
      rw [List.any_eq_true] at hmem
      obtain ⟨r, hr, hri⟩ := hmem
      simp only [decide_eq_true_eq] at hri
      exact List.mem_map.mpr ⟨r, hr, hri⟩
    have hingmap : (acc.map (addTitle p)).map (·.ingredient) =
        acc.map (·.ingredient) := by
      rw [List.map_map]
      exact List.map_congr_left (fun r _ => addTitle_ingredient p r)
    refine ⟨?_, ?_, ?_, ?_, ?_⟩
    · rw [hingmap]; exact h1
    · intro s
      rw [hingmap, List.map_append, List.mem_append]
      constructor
      · intro hs; exact Or.inl ((h2 s).mp hs)
      · rintro (hs | hs)
        · exact (h2 s).mpr hs
        · simp only [List.map_cons, List.map_nil,
            List.mem_singleton] at hs
          rw [hs]; exact hpmem
    · intro r' hr'
      obtain ⟨r, hr, hrr⟩ := List.mem_map.mp hr'
      have hrec := h3 r hr
      subst hrr
      by_cases hri : r.ingredient = p.1
      · have hADD : (addTitle p r).recipes =
            if p.2 ∈ r.recipes then r.recipes else r.recipes ++ [p.2] := by
          unfold addTitle; rw [if_pos hri]
        have hAI : (addTitle p r).ingredient = r.ingredient :=
          addTitle_ingredient p r
        have hpair : ∀ t, ((r.ingredient, t) ∈ qs ++ [p]) ↔
            ((r.ingredient, t) ∈ qs ∨ (r.ingredient = p.1 ∧ t = p.2)) := by
          intro t
          rw [List.mem_append]
          simp [Prod.ext_iff]
        constructor
        · intro t
          rw [hADD, hAI, hpair t]
          by_cases hp2 : p.2 ∈ r.recipes
          · rw [if_pos hp2, hrec.1 t]
            constructor
            · exact Or.inl
            · rintro (h | h)
              · exact h
              · rw [h.2]; exact (hrec.1 p.2).mp hp2
          · rw [if_neg hp2, List.mem_append, hrec.1 t]
            simp only [List.mem_singleton]
            constructor
            · rintro (h | h)
              · exact Or.inl h
              · exact Or.inr ⟨hri, h⟩
            · rintro (h | h)
              · exact Or.inl h
              · exact Or.inr h.2
        · rw [hADD]
          by_cases hp2 : p.2 ∈ r.recipes
          · rw [if_pos hp2]; exact hrec.2
          · rw [if_neg hp2]
            rw [List.nodup_append]
            exact ⟨hrec.2, List.nodup_singleton _, by simp [hp2]⟩
      · have hid : addTitle p r = r := by unfold addTitle; rw [if_neg hri]
        rw [hid]
        refine ⟨fun t => ?_, hrec.2⟩
        rw [hrec.1 t, List.mem_append]
        simp [Prod.ext_iff, hri]
    · rw [List.length_map, List.length_append]
      omega
    · rw [List.map_map]
      have heq : acc.map ((·.firstIndex) ∘ addTitle p) =
          acc.map (·.firstIndex) :=
        List.map_congr_left (fun r _ => addTitle_firstIndex p r)
      rw [heq, h5, List.length_map]
  · rw [if_neg hmem]
    have hfalse : (acc.any fun r => decide (r.ingredient = p.1)) = false :=
      Bool.eq_false_iff.mpr hmem
    rw [List.any_eq_false] at hfalse
    have hnot : ∀ r ∈ acc, r.ingredient ≠ p.1 := by
      intro r hr
      have := hfalse r hr
      simpa using this
    have hpnot : p.1 ∉ acc.map (·.ingredient) := by
      intro hc
      obtain ⟨r, hr, hri⟩ := List.mem_map.mp hc
      exact hnot r hr hri
    refine ⟨?_, ?_, ?_, ?_, ?_⟩
    · rw [List.map_append]
      simp only [List.map_cons, List.map_nil]
      rw [List.nodup_append]
      exact ⟨h1, List.nodup_singleton _, by simp [hpnot]⟩
    · intro s
      simp only [List.map_append, List.mem_append, List.map_cons,
        List.map_nil, List.mem_singleton]
      exact or_congr (h2 s) Iff.rfl
    · intro r hr
      rw [List.mem_append] at hr
      rcases hr with hr | hr
      · have hrec := h3 r hr
        refine ⟨fun t => ?_, hrec.2⟩
        rw [hrec.1 t, List.mem_append]
        simp [Prod.ext_iff, hnot r hr]
      · simp only [List.mem_singleton] at hr
        subst hr
        refine ⟨fun t => ?_, List.nodup_singleton _⟩
        simp only [List.mem_append, List.mem_singleton, Prod.ext_iff]
        constructor
        · intro h
          exact Or.inr ⟨by trivial, h⟩
        · rintro (h | h)
          · exfalso
            have : p.1 ∈ qs.map Prod.fst :=
              List.mem_map.mpr ⟨(p.1, t), h, rfl⟩
            exact hpnot ((h2 p.1).mpr this)
          · exact h.2
    · rw [List.length_append, List.length_append]
      simp
      omega
    · rw [List.map_append, h5, List.length_append]
      simp [List.range_succ]

/-- The dedup-map invariants hold after folding any batch of pairs. -/
lemma foldl_insert_inv (ps : List (String × String)) :
    ∀ (qs : List (String × String)) (acc : List IngredientRecord),
    (acc.map (·.ingredient)).Nodup →
    (∀ s, s ∈ acc.map (·.ingredient) ↔ s ∈ qs.map Prod.fst) →
    (∀ r ∈ acc,
      (∀ t, t ∈ r.recipes ↔ (r.ingredient, t) ∈ qs) ∧ r.recipes.Nodup) →
    acc.length ≤ qs.length →
    acc.map (·.firstIndex) = List.range acc.length →
    (((ps.foldl insertIngredient acc).map (·.ingredient)).Nodup ∧
     (∀ s, s ∈ (ps.foldl insertIngredient acc).map (·.ingredient) ↔
        s ∈ (qs ++ ps).map Prod.fst) ∧
     (∀ r ∈ ps.foldl insertIngredient acc,
        (∀ t, t ∈ r.recipes ↔ (r.ingredient, t) ∈ qs ++ ps) ∧
        r.recipes.Nodup) ∧
     (ps.foldl insertIngredient acc).length ≤ (qs ++ ps).length ∧
     (ps.foldl insertIngredient acc).map (·.firstIndex) =
        List.range (ps.foldl insertIngredient acc).length) := by
  induction ps with
  | nil =>
    intro qs acc h1 h2 h3 h4 h5
    simp only [List.foldl_nil, List.append_nil]
    exact ⟨h1, h2, h3, h4, h5⟩
  | cons p ps ih =>
    intro qs acc h1 h2 h3 h4 h5
    obtain ⟨g1, g2, g3, g4, g5⟩ := insertIngredient_inv qs acc p h1 h2 h3 h4 h5
    have hres := ih (qs ++ [p]) (insertIngredient acc p) g1 g2 g3 g4 g5
    rw [List.append_assoc, List.singleton_append] at hres
    simpa using hres

/-- The dedup map built from a pair list: distinct texts, texts = the
pair texts, contributor sets = paired titles (without duplicates), at most
one entry per pair, first-appearance indices in order. -/
lemma buildRecords_props (ps : List (String × String)) :
    ((buildRecords ps).map (·.ingredient)).Nodup ∧
    (∀ s, s ∈ (buildRecords ps).map (·.ingredient) ↔ s ∈ ps.map Prod.fst) ∧
    (∀ r ∈ buildRecords ps,
      (∀ t, t ∈ r.recipes ↔ (r.ingredient, t) ∈ ps) ∧ r.recipes.Nodup) ∧
    (buildRecords ps).length ≤ ps.length ∧
    (buildRecords ps).map (·.firstIndex) =
      List.range (buildRecords ps).length := by
  have hres := foldl_insert_inv ps [] [] (by simp) (by simp) (by simp)
    (by simp) (by simp)
  simpa [buildRecords] using hres

/-- The unique-ingredient list inherits the dedup-map invariants and
carries the computed keyword priorities. -/
lemma uniqueIngredients_props (rs : List CRecipe) :
    ((uniqueIngredients rs).map (·.ingredient)).Nodup ∧
    (∀ s, s ∈ (uniqueIngredients rs).map (·.ingredient) ↔
      s ∈ (allIngredientPairs rs).map Prod.fst) ∧
    (∀ r ∈ uniqueIngredients rs,
      (∀ t, t ∈ r.recipes ↔ (r.ingredient, t) ∈ allIngredientPairs rs) ∧
      r.recipes.Nodup) ∧
    (uniqueIngredients rs).length ≤ (allIngredientPairs rs).length ∧
    (uniqueIngredients rs).map (·.firstIndex) =
      List.range (uniqueIngredients rs).length ∧
    ∀ r ∈ uniqueIngredients rs,
      r.priority = computeKeywordPriority r.ingredient := by
  obtain ⟨b1, b2, b3, b4, b5⟩ := buildRecords_props (allIngredientPairs rs)
  have hingmap : (uniqueIngredients rs).map (·.ingredient) =
      (buildRecords (allIngredientPairs rs)).map (·.ingredient) := by
    unfold uniqueIngredients
    rw [List.map_map]
    exact List.map_congr_left (fun r _ => rfl)
  have hfimap : (uniqueIngredients rs).map (·.firstIndex) =
      (buildRecords (allIngredientPairs rs)).map (·.firstIndex) := by
    unfold uniqueIngredients
    rw [List.map_map]
    exact List.map_congr_left (fun r _ => rfl)
  have hlen : (uniqueIngredients rs).length =
      (buildRecords (allIngredientPairs rs)).length := by
    unfold uniqueIngredients
    rw [List.length_map]
  refine ⟨hingmap ▸ b1, ?_, ?_, ?_, ?_, ?_⟩
  · intro s; rw [hingmap]; exact b2 s
  · intro r hr
    obtain ⟨r0, hr0, hrr⟩ := List.mem_map.mp hr
    have hrec := b3 r0 hr0
    rw [← hrr]
    exact hrec
  · rw [hlen]; exact b4
  · rw [hfimap, hlen]; exact b5
  · intro r hr
    obtain ⟨r0, hr0, hrr⟩ := List.mem_map.mp hr
    rw [← hrr]

/-- The texts of the flattened pairs are the trimmed ingredient texts of
the recipes, in order. -/
lemma map_fst_pairs (rs : List CRecipe) :
    (allIngredientPairs rs).map Prod.fst =
      rs.flatMap (fun r => (r.ingredients.getD []).map trimStr) := by
  unfold allIngredientPairs
  rw [List.map_flatMap]
  have h1 : (fun p : Nat × CRecipe =>
      (match p.2.ingredients with
        | some ings =>
          ings.map (fun ing => (trimStr ing, effectiveTitle p.2 p.1))
        | none => ([] : List (String × String))).map Prod.fst) =
      (fun p : Nat × CRecipe => (p.2.ingredients.getD []).map trimStr) := by
    funext p
    cases hmatch : p.2.ingredients with
    | none => simp [hmatch]
    | some ings => simp [hmatch, List.map_map, Function.comp_def]
  rw [h1]
  have h2 : rs.enum.flatMap
      (fun p : Nat × CRecipe => (p.2.ingredients.getD []).map trimStr) =
      (rs.enum.map Prod.snd).flatMap
        (fun r : CRecipe => (r.ingredients.getD []).map trimStr) := by
    rw [List.flatMap_map]
  rw [h2, List.enum_map_snd]

/-- Membership of a pair in the flatten step, per recipe position. -/
lemma mem_allIngredientPairs (rs : List CRecipe) (s t : String) :
    (s, t) ∈ allIngredientPairs rs ↔
      ∃ i, ∃ h : i < rs.length,
        t = effectiveTitle rs[i] i ∧
        s ∈ ((rs[i]).ingredients.getD []).map trimStr := by
  unfold allIngredientPairs
  rw [List.mem_flatMap, List.exists_mem_enum]
  constructor
  · rintro ⟨i, hi, hmem⟩
    dsimp only at hmem
    refine ⟨i, hi, ?_⟩
    cases hmatch : (rs[i]).ingredients with
    | none =>
      rw [hmatch] at hmem
      simp at hmem
    | some ings =>
      rw [hmatch] at hmem
      obtain ⟨ing, hing, heq⟩ := List.mem_map.mp hmem
      injection heq with he1 he2
      refine ⟨he2.symm, ?_⟩
      simp only [Option.getD_some]
      exact List.mem_map.mpr ⟨ing, hing, he1⟩
  · rintro ⟨i, hi, ht, hs⟩
    refine ⟨i, hi, ?_⟩
    dsimp only
    cases hmatch : (rs[i]).ingredients with
    | none =>
      rw [hmatch] at hs
      simp at hs
    | some ings =>
      rw [hmatch] at hs
      simp only [Option.getD_some] at hs
      obtain ⟨ing, hing, htrim⟩ := List.mem_map.mp hs
      exact List.mem_map.mpr ⟨ing, hing, by rw [htrim, ← ht]⟩

/-- In a record list with pairwise-distinct texts, a present text is
counted exactly once. -/
lemma countP_ingredient_eq_one (l : List IngredientRecord) (s : String)
    (hn : (l.map (·.ingredient)).Nodup) (hm : s ∈ l.map (·.ingredient)) :
    l.countP (fun r => decide (r.ingredient = s)) = 1 := by
  induction l with
  | nil => simp at hm
  | cons r ts ih =>
    rw [List.map_cons, List.nodup_cons] at hn
    rw [List.map_cons, List.mem_cons] at hm
    rw [List.countP_cons]
    rcases hm with hm | hm
    · have hz : ts.countP (fun r2 => decide (r2.ingredient = s)) = 0 := by
        rw [List.countP_eq_zero]
        intro a ha
        simp only [decide_eq_true_eq]
        intro hc
        apply hn.1
        exact List.mem_map.mpr ⟨a, ha, hc.trans hm⟩
      rw [hz]
      simp [hm]
    · rw [ih hn.2 hm]
      have hf : ¬ (r.ingredient = s) := by
        intro hc
        exact hn.1 (hc ▸ hm)
      simp [hf]

/-- The unique-ingredient list is as long as the number of distinct
trimmed texts. -/
lemma uniq_length_eq_dedup (rs : List CRecipe) :
    (uniqueIngredients rs).length =
      ((allIngredientPairs rs).map Prod.fst).dedup.length := by
  obtain ⟨u1, u2, _, _, _, _⟩ := uniqueIngredients_props rs
  have hperm : List.Perm ((uniqueIngredients rs).map (·.ingredient))
      ((allIngredientPairs rs).map Prod.fst).dedup := by
    rw [List.perm_ext_iff_of_nodup u1 (List.nodup_dedup _)]
    intro a
    rw [List.mem_dedup]
    exact u2 a
  have hlen := hperm.length_eq
  rw [List.length_map] at hlen
  exact hlen

/-- With the generative flag off, consolidateIngredients returns the
manual sort of the unique ingredients, externalized. -/
lemma consolidate_det_eq (ai : List String → Option String)
    (rs : List CRecipe) :
    (consolidateIngredients false ai (some rs)).1 =
      (manualSortRecords (uniqueIngredients rs)).map toItem := by
  unfold consolidateIngredients
  dsimp only
  by_cases h0 : rs.length = 0
  · rw [if_pos h0]
    have hnil : rs = [] := List.length_eq_zero.mp h0
    subst hnil
    rfl
  · rw [if_neg h0]
    by_cases h1 : (allIngredientPairs rs).length = 0
    · rw [if_pos h1]
      have hp : allIngredientPairs rs = [] := List.length_eq_zero.mp h1
      simp [uniqueIngredients, buildRecords, hp, manualSortRecords,
        List.insertionSort]
    · rw [if_neg h1]
      rfl

/-- The length of the flattened pair list is the total number of
ingredient entries. -/
lemma allIngredientPairs_length (rs : List CRecipe) :
    (allIngredientPairs rs).length =
      (rs.map (fun r => (r.ingredients.getD []).length)).sum := by
  have h := congrArg List.length (map_fst_pairs rs)
  rw [List.length_map] at h
  rw [h, List.length_flatMap]
  congr 1
  apply List.map_congr_left
  intro r _
  simp

/-- C3 (with dedup read over exact trimmed ingredient text, as the code
trims each entry before deduplication): with generative mode off, every
trimmed ingredient text of the input appears exactly once in the output;
each output item's recipes field holds, without duplicates, exactly the
titles of the recipes containing an ingredient trimming to that text; and
the output length is at most the total entry count and equals the number
of distinct trimmed texts. -/
theorem consolidate_roundtrip_counts (ai : List String → Option String)
    (rs : List CRecipe) :
    (∀ s, s ∈ rs.flatMap (fun r => (r.ingredients.getD []).map trimStr) →
      (consolidateIngredients false ai (some rs)).1.countP
        (fun it => it.ingredient = s) = 1) ∧
    (∀ it ∈ (consolidateIngredients false ai (some rs)).1,
      it.recipes.Nodup ∧
      ∀ t, t ∈ it.recipes ↔ ∃ i, ∃ h : i < rs.length,
        t = effectiveTitle rs[i] i ∧
        it.ingredient ∈ ((rs[i]).ingredients.getD []).map trimStr) ∧
    (consolidateIngredients false ai (some rs)).1.length ≤
      (rs.map (fun r => (r.ingredients.getD []).length)).sum ∧
    (consolidateIngredients false ai (some rs)).1.length =
      (rs.flatMap
        (fun r => (r.ingredients.getD []).map trimStr)).dedup.length := by
  obtain ⟨u1, u2, u3, u4, u5, u6⟩ := uniqueIngredients_props rs
  have hdet := consolidate_det_eq ai rs
  have hperm : List.Perm (manualSortRecords (uniqueIngredients rs))
      (uniqueIngredients rs) :=
    List.perm_insertionSort recordLE (uniqueIngredients rs)
  refine ⟨?_, ?_, ?_, ?_⟩
  · intro s hs
    rw [hdet, List.countP_map]
    have hcongr : (manualSortRecords (uniqueIngredients rs)).countP
        ((fun it => decide (it.ingredient = s)) ∘ toItem) =
        (manualSortRecords (uniqueIngredients rs)).countP
          (fun r => decide (r.ingredient = s)) :=
      List.countP_congr (fun r _ => Iff.rfl)
    rw [hcongr, hperm.countP_eq]
    apply countP_ingredient_eq_one _ _ u1
    apply (u2 s).mpr
    rw [map_fst_pairs]
    exact hs
  · intro it hit
    rw [hdet] at hit
    obtain ⟨r, hr, hri⟩ := List.mem_map.mp hit
    have hrmem : r ∈ uniqueIngredients rs := hperm.mem_iff.mp hr
    have hrec := u3 r hrmem
    rw [← hri]
    refine ⟨hrec.2, fun t => ?_⟩
    show t ∈ r.recipes ↔ _
    rw [hrec.1 t]
    exact mem_allIngredientPairs rs r.ingredient t
  · rw [hdet, List.length_map, hperm.length_eq, ← allIngredientPairs_length]
    exact u4
  · rw [hdet, List.length_map, hperm.length_eq, uniq_length_eq_dedup,
      map_fst_pairs]

/-- C3 counterexample to the exact-string reading: an entry with
surrounding whitespace is trimmed before deduplication, so the exact
string does not appear in the output and two distinct exact strings
produce a single output entry. -/
theorem consolidate_exact_string_counterexample :
    (consolidateIngredients false (fun _ => none)
      (some [⟨"A", some [" salt ", "salt"]⟩])).1 = [⟨"salt", ["A"]⟩] ∧
    (consolidateIngredients false (fun _ => none)
      (some [⟨"A", some [" salt ", "salt"]⟩])).1.countP
        (fun it => it.ingredient = " salt ") = 0 ∧
    (" salt " : String) ≠ "salt" ∧
    (consolidateIngredients false (fun _ => none)
      (some [⟨"A", some [" salt ", "salt"]⟩])).1.length = 1 := by
  refine ⟨by decide, by decide, by decide, by decide⟩

/-- Witness for C3 at a shared salt entry of two recipes. -/
theorem consolidate_roundtrip_counts_witness :
    (consolidateIngredients false (fun _ => none)
      (some [⟨"A", some ["1 tsp salt"]⟩,
             ⟨"B", some ["1 tsp salt", "pepper"]⟩])).1.countP
      (fun it => it.ingredient = "1 tsp salt") = 1 :=
  (consolidate_roundtrip_counts (fun _ => none)
    [⟨"A", some ["1 tsp salt"]⟩, ⟨"B", some ["1 tsp salt", "pepper"]⟩]).1
    "1 tsp salt" (by decide)

/-- C5: with generative mode off the output is the unique ingredients
sorted strictly by priority then first appearance; the sorted list is a
permutation of the unique ingredients; priorities are computed by the
keyword scan; the keyword table has 31 entries in the fixed order and a
non-matching text gets priority 31. -/
theorem deterministic_priority_sort (ai : List String → Option String)
    (rs : List CRecipe) :
    (consolidateIngredients false ai (some rs)).1 =
      (manualSortRecords (uniqueIngredients rs)).map toItem ∧
    (manualSortRecords (uniqueIngredients rs)).Pairwise
      (fun a b => a.priority < b.priority ∨
        (a.priority = b.priority ∧ a.firstIndex < b.firstIndex)) ∧
    List.Perm (manualSortRecords (uniqueIngredients rs))
      (uniqueIngredients rs) ∧
    ((uniqueIngredients rs).map (·.priority) =
      (uniqueIngredients rs).map
        (fun r => computeKeywordPriority r.ingredient)) ∧
    keywordTable = ["oil", "butter", "garlic", "onion", "salt", "pepper",
      "sugar", "flour", "egg", "milk", "cream", "cheese", "tomato",
      "chicken", "beef", "pasta", "rice", "beans", "lemon", "vinegar",
      "broth", "potato", "carrot", "celery", "spinach", "mushroom",
      "bacon", "sausage", "fish", "shrimp", "pork"] ∧
    keywordTable.length = 31 ∧
    ∀ text : String, computeKeywordPriority text =
      (keywordTable.findIdx?
        (fun kw => includesSubstr (lowerStr text) kw)).getD 31 := by
  obtain ⟨u1, u2, u3, u4, u5, u6⟩ := uniqueIngredients_props rs
  have hperm : List.Perm (manualSortRecords (uniqueIngredients rs))
      (uniqueIngredients rs) :=
    List.perm_insertionSort recordLE (uniqueIngredients rs)
  refine ⟨consolidate_det_eq ai rs, ?_, hperm, ?_, rfl, rfl, ?_⟩
  · have hsorted : List.Sorted recordLE
        (manualSortRecords (uniqueIngredients rs)) :=
      List.sorted_insertionSort recordLE (uniqueIngredients rs)
    have hnodup_fi : ((manualSortRecords (uniqueIngredients rs)).map
        (·.firstIndex)).Nodup := by
      refine (List.Perm.nodup_iff (hperm.map (·.firstIndex))).mpr ?_
      rw [u5]
      exact List.nodup_range _
    have hpw_ne : (manualSortRecords (uniqueIngredients rs)).Pairwise
        (fun a b => a.firstIndex ≠ b.firstIndex) := by
      have h2 : List.Pairwise (fun a b => a ≠ b)
          ((manualSortRecords (uniqueIngredients rs)).map (·.firstIndex)) :=
        hnodup_fi
      exact List.pairwise_map.mp h2
    have hpw := hsorted.and hpw_ne
    refine hpw.imp ?_
    intro a b hab
    obtain ⟨hle, hne⟩ := hab
    unfold recordLE at hle
    omega
  · unfold uniqueIngredients
    rw [List.map_map, List.map_map]
    exact List.map_congr_left (fun r _ => rfl)
  · intro text
    cases hf : keywordTable.findIdx?
        (fun kw => includesSubstr (lowerStr text) kw) with
    | none =>
      unfold computeKeywordPriority
      dsimp only
      rw [hf]
      rfl
    | some i =>
      unfold computeKeywordPriority
      dsimp only
      rw [hf]
      rfl

end MiseEnPlaice
